import Mathlib

/-!
# Verification of the simple-schema-validator engine

Shallow embedding of `src/schemaValidator.ts`: the five schema kinds
(string / number / boolean / object / array), the dynamically typed data
values the engine inspects, and the recursive validation engine
(`SchemaService.validate` dispatching to the per-kind validator classes).

Modelling decisions, each tied to the source:

* JS values are modelled by `Value`; `typeofValue` mirrors the JS `typeof`
  operator, in particular `typeof null = "object"` and
  `typeof anArray = "object"`.
* `ObjectSchema.properties` is a `Record<string, Schema>`: a finite map
  with string keys in insertion order, embedded as the association-list
  type `Props` (mutually inductive with `Schema` so that recursion over a
  schema tree is structural).  `props[key]` is first-match lookup
  (`lookupProp`).
* A JS object value is likewise a finite map in insertion order:
  `Value.vobj` carries an association list, `Object.keys` is
  `List.map Prod.fst`, and `data[key]` pairs each key with its value.
  `Object.keys` of an array yields the decimal index strings in ascending
  order with the elements as the looked-up values (`indexFields`).
* The validators throw `Error` objects with message strings; the spec's
  error taxonomy assigns a kind to each throw site.  `ValidationError`
  records the kind together with the data the message interpolates
  (`typeof data` / `schema.type` for the type gates, the `required` list,
  the offending key).  `Object.keys(null)` in the object validator throws
  a JS `TypeError` before any validation logic runs; that outcome is the
  separate `RunError.keysTypeError` constructor, distinct from every
  `ValidationError`.
* The engine's recursion (object and array validators re-instantiate
  `SchemaService` on sub-values/sub-schemas) is embedded with an explicit
  fuel parameter `validateF`; `validateF_isSome` proves fuel `sizeS schema`
  always suffices (the recursion descends strictly into sub-schemas), and
  the total function `validate` runs `validateF` at that fuel.
-/

mutual

/-- The closed union of the five schema kinds of `schemaValidator.ts`
(`StringSchema`, `NumberSchema`, `BooleanSchema`, `ObjectSchema`,
`ArraySchema`).  `required` and `enum` are the optional fields of the
source's type declarations. -/
inductive Schema where
  | str (enum : Option (List String))
  | num
  | bool
  | obj (properties : Props) (required : Option (List String))
  | arr (items : Schema)

/-- `ObjectSchema.properties`: a `Record<string, Schema>`, i.e. a finite
map from property name to sub-schema, kept in insertion order. -/
inductive Props where
  | nil
  | cons (key : String) (s : Schema) (rest : Props)

end

/-- A dynamically typed JS value handed to the validator: string, number,
boolean, `null`, an object literal (association list of fields in insertion
order), or an array. -/
inductive Value where
  | vstr (s : String)
  | vnum (n : Int)
  | vbool (b : Bool)
  | vnull
  | vobj (fields : List (String × Value))
  | varr (elems : List Value)

/-- The JS `typeof` operator on a `Value`.  `typeof null` and
`typeof anArray` are both `"object"`. -/
def typeofValue : Value → String
  | .vstr _ => "string"
  | .vnum _ => "number"
  | .vbool _ => "boolean"
  | .vnull => "object"
  | .vobj _ => "object"
  | .varr _ => "object"

/-- The schema's `type` discriminant string. -/
def schemaType : Schema → String
  | .str _ => "string"
  | .num => "number"
  | .bool => "boolean"
  | .obj _ _ => "object"
  | .arr _ => "array"

/-- The error kinds of the spec's taxonomy, with the data each throw site
interpolates into its message. -/
inductive ValidationError where
  | typeMismatch (dataType : String) (schemaTy : String)
  | enumViolation
  | missingRequiredField (required : List String)
  | unknownProperty (key : String)
deriving DecidableEq, Repr

/-- Everything a call of the engine can throw: a `ValidationError`, or the
JS `TypeError` raised by `Object.keys(null)` inside `objValidator` (the
only non-`ValidationError` exception reachable from the embedded code). -/
inductive RunError where
  | verr (e : ValidationError)
  | keysTypeError
deriving DecidableEq, Repr

/-- Result of one engine call: normal return or a thrown error. -/
abbrev Res := Except RunError Unit

instance : DecidableEq Res := fun a b =>
  match a, b with
  | .ok (), .ok () => isTrue rfl
  | .ok (), .error _ => isFalse (fun h => Except.noConfusion h)
  | .error _, .ok () => isFalse (fun h => Except.noConfusion h)
  | .error e, .error e' =>
    match decEq e e' with
    | isTrue h => isTrue (by rw [h])
    | isFalse h => isFalse (fun hh => h (by injection hh))

/-- `props[key]`: first binding for the key in the properties record. -/
def lookupProp (k : String) : Props → Option Schema
  | .nil => none
  | .cons k' s rest => if k' = k then some s else lookupProp k rest

/-- `const isInEvery = (arr, target) => target.every(v => arr.includes(v))`
from `objValidator.validate`. -/
def isInEvery (arr target : List String) : Bool :=
  target.all (fun v => arr.contains v)

/-- `Object.keys` on an array: the decimal index strings paired with the
elements, in ascending index order. -/
def indexFields (elems : List Value) : List (String × Value) :=
  elems.enum.map (fun p => (toString p.1, p.2))

/-- `stringValidator.validate`, after the factory has dispatched a
`StringSchema` to it: type gate on `typeof data`, then the `enum`
membership test (`schema.enum` is truthy even when the list is empty). -/
def stringCheck (data : Value) (en : Option (List String)) : Res :=
  match data with
  | .vstr s =>
    match en with
    | some es => if es.contains s then .ok () else .error (.verr .enumViolation)
    | none => .ok ()
  | _ => .error (.verr (.typeMismatch (typeofValue data) "string"))

/-- `numberValidator.validate` after dispatch: the `typeof` gate only. -/
def numberCheck (data : Value) : Res :=
  match data with
  | .vnum _ => .ok ()
  | _ => .error (.verr (.typeMismatch (typeofValue data) "number"))

/-- `booleanValidator.validate` after dispatch: the `typeof` gate only. -/
def booleanCheck (data : Value) : Res :=
  match data with
  | .vbool _ => .ok ()
  | _ => .error (.verr (.typeMismatch (typeofValue data) "boolean"))

/-- The `data.forEach(datum => new SchemaService().validate(datum, items))`
loop of `arrayValidator.validate`: elements in order, the first thrown
error aborts the loop.  `rec` is the recursive engine call with the
`items` schema already applied; `none` signals fuel exhaustion. -/
def elemsGo (rec : Value → Option Res) : List Value → Option Res
  | [] => some (.ok ())
  | e :: rest =>
    match rec e with
    | none => none
    | some (.ok _) => elemsGo rec rest
    | some (.error err) => some (.error err)

/-- The `dataKeys.forEach(key => ...)` loop of `objValidator.validate`:
for each data field in order, look the key up in `properties`; an absent
key throws `UnknownProperty`, a present key recurses on
`(data[key], props[key])` and the first thrown error aborts the loop. -/
def fieldsGo (rec : Value → Schema → Option Res) (props : Props) :
    List (String × Value) → Option Res
  | [] => some (.ok ())
  | (k, v) :: rest =>
    match lookupProp k props with
    | some sub =>
      match rec v sub with
      | none => none
      | some (.ok _) => fieldsGo rec props rest
      | some (.error err) => some (.error err)
    | none => some (.error (.verr (.unknownProperty k)))

/-- Body of `objValidator.validate` once the `typeof` gate has passed and
`Object.keys` has produced `fields`: the required-list presence check
(`requiredProps && requiredProps.length && !isInEvery(dataKeys,
requiredProps)`), then the per-key loop. -/
def objBody (rec : Value → Schema → Option Res) (fields : List (String × Value))
    (props : Props) (req : Option (List String)) : Option Res :=
  match req with
  | some r =>
    if r.length != 0 && !(isInEvery (fields.map Prod.fst) r) then
      some (.error (.verr (.missingRequiredField r)))
    else fieldsGo rec props fields
  | none => fieldsGo rec props fields

/-- The engine (`SchemaService.validate`: factory dispatch on
`schema.type`, then the selected validator) with an explicit recursion-
depth fuel; `none` means the fuel ran out.  The object validator's
`typeof data !== 'object'` gate admits `null`, object literals and arrays;
on `null` the subsequent `Object.keys(data)` throws the JS `TypeError`. -/
def validateF : Nat → Value → Schema → Option Res
  | 0, _, _ => none
  | _ + 1, data, .str en => some (stringCheck data en)
  | _ + 1, data, .num => some (numberCheck data)
  | _ + 1, data, .bool => some (booleanCheck data)
  | n + 1, data, .arr items =>
    match data with
    | .varr elems => elemsGo (fun e => validateF n e items) elems
    | _ => some (.error (.verr (.typeMismatch (typeofValue data) "array")))
  | n + 1, data, .obj props req =>
    match data with
    | .vnull => some (.error .keysTypeError)
    | .vobj fields => objBody (validateF n) fields props req
    | .varr elems => objBody (validateF n) (indexFields elems) props req
    | _ => some (.error (.verr (.typeMismatch (typeofValue data) "object")))

mutual

/-- Size of a schema tree, the fuel bound for `validateF`. -/
def sizeS : Schema → Nat
  | .str _ => 1
  | .num => 1
  | .bool => 1
  | .arr items => 1 + sizeS items
  | .obj props _ => 1 + sizeProps props

/-- Size of a properties record. -/
def sizeProps : Props → Nat
  | .nil => 1
  | .cons _ s rest => 1 + sizeS s + sizeProps rest

end

/-- `validateSchema(data, schema)`: the engine run with enough fuel
(`validateF_isSome` below proves `sizeS schema` always suffices, so the
default is never consulted). -/
def validate (data : Value) (schema : Schema) : Res :=
  (validateF (sizeS schema) data schema).getD (.ok ())

/-- `Array.isArray` on a `Value`. -/
def jsIsArray : Value → Bool
  | .varr _ => true
  | _ => false

/-- Fuel-free restatement of the array validator's element loop, phrased
directly with the total engine `validate` (used to state claims). -/
def runElems (f : Value → Res) : List Value → Res
  | [] => .ok ()
  | e :: rest =>
    match f e with
    | .ok _ => runElems f rest
    | .error err => .error err

/-- Fuel-free restatement of the object validator's per-key loop, phrased
directly with the total engine `validate` (used to state claims). -/
def runFields (props : Props) : List (String × Value) → Res
  | [] => .ok ()
  | (k, v) :: rest =>
    match lookupProp k props with
    | some sub =>
      match validate v sub with
      | .ok _ => runFields props rest
      | .error e => .error e
    | none => .error (.verr (.unknownProperty k))

/-- Fuel-free restatement of the object validator's body after the
`typeof` gate: required-presence check, then the per-key loop. -/
def objRun (fields : List (String × Value)) (props : Props)
    (req : Option (List String)) : Res :=
  match req with
  | some r =>
    if r.length != 0 && !(isInEvery (fields.map Prod.fst) r) then
      .error (.verr (.missingRequiredField r))
    else runFields props fields
  | none => runFields props fields

theorem sizeS_pos (s : Schema) : 1 ≤ sizeS s := by
  cases s <;> simp [sizeS]

theorem lookupProp_size :
    ∀ (props : Props) (k : String) (sub : Schema),
      lookupProp k props = some sub → sizeS sub < sizeProps props
  | .nil, _, _ => by simp [lookupProp]
  | .cons k' s rest, k, sub => by
    simp only [lookupProp]
    split
    · intro h
      injection h with h2
      subst h2
      simp only [sizeProps]
      omega
    · intro h
      have := lookupProp_size rest k sub h
      simp only [sizeProps]
      omega

theorem elemsGo_isSome (rec : Value → Option Res) (h : ∀ e, (rec e).isSome) :
    ∀ l, (elemsGo rec l).isSome := by
  intro l
  induction l with
  | nil => simp [elemsGo]
  | cons e rest ih =>
    simp only [elemsGo]
    cases hre : rec e with
    | none => have he := h e; rw [hre] at he; simp at he
    | some r =>
      cases r with
      | ok u => exact ih
      | error err => simp

theorem fieldsGo_isSome (rec : Value → Schema → Option Res) (props : Props)
    (h : ∀ k v sub, lookupProp k props = some sub → (rec v sub).isSome) :
    ∀ fields, (fieldsGo rec props fields).isSome := by
  intro fields
  induction fields with
  | nil => simp [fieldsGo]
  | cons kv rest ih =>
    obtain ⟨k, v⟩ := kv
    simp only [fieldsGo]
    split
    · rename_i sub hl
      split
      · rename_i hrv
        have hv := h k v sub hl
        rw [hrv] at hv
        simp at hv
      · exact ih
      · simp
    · simp

theorem objBody_isSome (rec : Value → Schema → Option Res) (props : Props)
    (h : ∀ k v sub, lookupProp k props = some sub → (rec v sub).isSome) :
    ∀ fields req, (objBody rec fields props req).isSome := by
  intro fields req
  cases req with
  | none => exact fieldsGo_isSome rec props h fields
  | some r =>
    simp only [objBody]
    split
    · simp
    · exact fieldsGo_isSome rec props h fields

theorem validateF_isSome :
    ∀ (n : Nat) (s : Schema) (v : Value), sizeS s ≤ n → (validateF n v s).isSome := by
  intro n
  induction n with
  | zero => intro s v hs; have := sizeS_pos s; omega
  | succ n ih =>
    intro s v hs
    cases s with
    | str en => cases v <;> simp [validateF]
    | num => cases v <;> simp [validateF]
    | bool => cases v <;> simp [validateF]
    | arr items =>
      have hit : sizeS items ≤ n := by simp only [sizeS] at hs; omega
      cases v <;> simp only [validateF] <;> try simp
      exact elemsGo_isSome _ (fun e => ih items e hit) _
    | obj props req =>
      have hpr : ∀ k v sub, lookupProp k props = some sub → (validateF n v sub).isSome := by
        intro k v sub hl
        have h1 := lookupProp_size props k sub hl
        simp only [sizeS] at hs
        exact ih sub v (by omega)
      cases v <;> simp only [validateF] <;> try simp
      · exact objBody_isSome _ props hpr _ req
      · exact objBody_isSome _ props hpr _ req

theorem elemsGo_mono (rec rec' : Value → Option Res)
    (h : ∀ e r, rec e = some r → rec' e = some r) :
    ∀ l r, elemsGo rec l = some r → elemsGo rec' l = some r := by
  intro l
  induction l with
  | nil => intro r hr; simpa [elemsGo] using hr
  | cons e rest ih =>
    intro r hr
    cases hre : rec e with
    | none => simp only [elemsGo, hre] at hr; exact absurd hr (by simp)
    | some r0 =>
      simp only [elemsGo, hre] at hr
      simp only [elemsGo, h e r0 hre]
      cases r0 with
      | ok u => exact ih r hr
      | error err => exact hr

theorem fieldsGo_mono (rec rec' : Value → Schema → Option Res) (props : Props)
    (h : ∀ v s r, rec v s = some r → rec' v s = some r) :
    ∀ fields r, fieldsGo rec props fields = some r → fieldsGo rec' props fields = some r := by
  intro fields
  induction fields with
  | nil => intro r hr; simpa [fieldsGo] using hr
  | cons kv rest ih =>
    obtain ⟨k, v⟩ := kv
    intro r hr
    cases hl : lookupProp k props with
    | none =>
      simp only [fieldsGo, hl] at hr
      simp only [fieldsGo, hl]
      exact hr
    | some sub =>
      simp only [fieldsGo, hl] at hr
      simp only [fieldsGo, hl]
      cases hrv : rec v sub with
      | none => simp only [hrv] at hr; exact absurd hr (by simp)
      | some r0 =>
        simp only [hrv] at hr
        simp only [h v sub r0 hrv]
        cases r0 with
        | ok u => exact ih r hr
        | error err => exact hr

theorem objBody_mono (rec rec' : Value → Schema → Option Res) (props : Props)
    (h : ∀ v s r, rec v s = some r → rec' v s = some r) :
    ∀ fields req r, objBody rec fields props req = some r → objBody rec' fields props req = some r := by
  intro fields req r hr
  cases req with
  | none => exact fieldsGo_mono rec rec' props h fields r hr
  | some rl =>
    simp only [objBody] at hr ⊢
    by_cases hcond : (rl.length != 0 && !(isInEvery (fields.map Prod.fst) rl)) = true
    · rw [if_pos hcond] at hr
      rw [if_pos hcond]
      exact hr
    · rw [if_neg hcond] at hr
      rw [if_neg hcond]
      exact fieldsGo_mono rec rec' props h fields r hr

theorem validateF_mono :
    ∀ (n m : Nat), n ≤ m → ∀ (v : Value) (s : Schema) (r : Res),
      validateF n v s = some r → validateF m v s = some r := by
  intro n
  induction n with
  | zero => intro m _ v s r h; simp [validateF] at h
  | succ n ih =>
    intro m hm v s r h
    obtain ⟨m', rfl⟩ : ∃ m', m = m' + 1 := ⟨m - 1, by omega⟩
    have hm' : n ≤ m' := by omega
    cases s with
    | str en => simpa [validateF] using h
    | num => simpa [validateF] using h
    | bool => simpa [validateF] using h
    | arr items =>
      cases v with
      | varr elems =>
        simp only [validateF] at h ⊢
        exact elemsGo_mono _ _ (fun e r0 h0 => ih m' hm' e items r0 h0) elems r h
      | vstr s0 => simpa [validateF] using h
      | vnum n0 => simpa [validateF] using h
      | vbool b0 => simpa [validateF] using h
      | vnull => simpa [validateF] using h
      | vobj fs => simpa [validateF] using h
    | obj props req =>
      cases v with
      | vobj fields =>
        simp only [validateF] at h ⊢
        exact objBody_mono _ _ props (fun v0 s0 r0 h0 => ih m' hm' v0 s0 r0 h0) fields req r h
      | varr elems =>
        simp only [validateF] at h ⊢
        exact objBody_mono _ _ props (fun v0 s0 r0 h0 => ih m' hm' v0 s0 r0 h0) (indexFields elems) req r h
      | vstr s0 => simpa [validateF] using h
      | vnum n0 => simpa [validateF] using h
      | vbool b0 => simpa [validateF] using h
      | vnull => simpa [validateF] using h

theorem validateF_validate :
    ∀ (s : Schema) (n : Nat) (v : Value), sizeS s ≤ n → validateF n v s = some (validate v s) := by
  intro s n v hn
  obtain ⟨r, hr⟩ := Option.isSome_iff_exists.mp (validateF_isSome (sizeS s) s v le_rfl)
  have hv : validate v s = r := by simp [validate, hr]
  rw [hv]
  exact validateF_mono (sizeS s) n hn v s r hr

theorem validate_eq_getD (v : Value) (s : Schema) :
    validate v s = (validateF (sizeS s) v s).getD (.ok ()) := rfl

theorem validate_str (v : Value) (en : Option (List String)) :
    validate v (.str en) = stringCheck v en := rfl

theorem validate_num (v : Value) : validate v .num = numberCheck v := rfl

theorem validate_bool (v : Value) : validate v .bool = booleanCheck v := rfl

theorem sizeS_arr (items : Schema) : sizeS (.arr items) = sizeS items + 1 := by
  simp [sizeS]; omega

theorem sizeS_obj (props : Props) (req : Option (List String)) :
    sizeS (.obj props req) = sizeProps props + 1 := by
  simp [sizeS]; omega

theorem elemsGo_eval (rec : Value → Option Res) (f : Value → Res)
    (h : ∀ e, rec e = some (f e)) : ∀ l, elemsGo rec l = some (runElems f l) := by
  intro l
  induction l with
  | nil => rfl
  | cons e rest ih =>
    simp only [elemsGo, runElems, h e]
    cases f e with
    | ok u => exact ih
    | error err => rfl

theorem fieldsGo_eval (rec : Value → Schema → Option Res) (props : Props)
    (h : ∀ k v sub, lookupProp k props = some sub → rec v sub = some (validate v sub)) :
    ∀ fields, fieldsGo rec props fields = some (runFields props fields) := by
  intro fields
  induction fields with
  | nil => rfl
  | cons kv rest ih =>
    obtain ⟨k, v⟩ := kv
    cases hl : lookupProp k props with
    | none => simp only [fieldsGo, runFields, hl]
    | some sub =>
      simp only [fieldsGo, runFields, hl, h k v sub hl]
      cases validate v sub with
      | ok u => exact ih
      | error err => rfl

theorem objBody_eval (rec : Value → Schema → Option Res) (props : Props)
    (h : ∀ k v sub, lookupProp k props = some sub → rec v sub = some (validate v sub)) :
    ∀ fields req, objBody rec fields props req = some (objRun fields props req) := by
  intro fields req
  cases req with
  | none => exact fieldsGo_eval rec props h fields
  | some rl =>
    simp only [objBody, objRun]
    by_cases hcond : (rl.length != 0 && !(isInEvery (fields.map Prod.fst) rl)) = true
    · rw [if_pos hcond, if_pos hcond]
    · rw [if_neg hcond, if_neg hcond]
      exact fieldsGo_eval rec props h fields

theorem validate_arr_varr (elems : List Value) (items : Schema) :
    validate (.varr elems) (.arr items) = runElems (fun e => validate e items) elems := by
  rw [validate_eq_getD, sizeS_arr]
  have h1 : validateF (sizeS items + 1) (.varr elems) (.arr items)
      = elemsGo (fun e => validateF (sizeS items) e items) elems := rfl
  rw [h1, elemsGo_eval _ _ (fun e => validateF_validate items (sizeS items) e le_rfl) elems]
  rfl

theorem validate_arr_gate (v : Value) (items : Schema) (h : jsIsArray v = false) :
    validate v (.arr items) = .error (.verr (.typeMismatch (typeofValue v) "array")) := by
  rw [validate_eq_getD, sizeS_arr]
  cases v with
  | varr elems => simp [jsIsArray] at h
  | vstr s => rfl
  | vnum n => rfl
  | vbool b => rfl
  | vnull => rfl
  | vobj fs => rfl

theorem validate_vobj_obj (fields : List (String × Value)) (props : Props)
    (req : Option (List String)) :
    validate (.vobj fields) (.obj props req) = objRun fields props req := by
  rw [validate_eq_getD, sizeS_obj]
  have h1 : validateF (sizeProps props + 1) (.vobj fields) (.obj props req)
      = objBody (validateF (sizeProps props)) fields props req := rfl
  rw [h1, objBody_eval _ props
    (fun k v sub hl => validateF_validate sub (sizeProps props) v
      (le_of_lt (lookupProp_size props k sub hl))) fields req]
  rfl

theorem validate_varr_obj (elems : List Value) (props : Props)
    (req : Option (List String)) :
    validate (.varr elems) (.obj props req) = objRun (indexFields elems) props req := by
  rw [validate_eq_getD, sizeS_obj]
  have h1 : validateF (sizeProps props + 1) (.varr elems) (.obj props req)
      = objBody (validateF (sizeProps props)) (indexFields elems) props req := rfl
  rw [h1, objBody_eval _ props
    (fun k v sub hl => validateF_validate sub (sizeProps props) v
      (le_of_lt (lookupProp_size props k sub hl))) (indexFields elems) req]
  rfl

theorem validate_vnull_obj (props : Props) (req : Option (List String)) :
    validate .vnull (.obj props req) = .error .keysTypeError := by
  rw [validate_eq_getD, sizeS_obj]
  rfl

theorem validate_obj_gate (v : Value) (props : Props) (req : Option (List String))
    (h : typeofValue v ≠ "object") :
    validate v (.obj props req) = .error (.verr (.typeMismatch (typeofValue v) "object")) := by
  rw [validate_eq_getD, sizeS_obj]
  cases v with
  | vstr s => rfl
  | vnum n => rfl
  | vbool b => rfl
  | vnull => simp [typeofValue] at h
  | vobj fs => simp [typeofValue] at h
  | varr es => simp [typeofValue] at h

theorem isInEvery_iff (arr target : List String) :
    isInEvery arr target = true ↔ ∀ x ∈ target, x ∈ arr := by
  simp [isInEvery]

theorem runElems_ok (f : Value → Res) :
    ∀ l, (∀ e ∈ l, f e = .ok ()) → runElems f l = .ok () := by
  intro l
  induction l with
  | nil => intro _; rfl
  | cons e rest ih =>
    intro h
    simp only [runElems, h e (by simp)]
    exact ih (fun x hx => h x (by simp [hx]))

theorem runElems_append (f : Value → Res) (pre : List Value) (e : Value)
    (post : List Value) (err : RunError) (hpre : ∀ x ∈ pre, f x = .ok ())
    (he : f e = .error err) : runElems f (pre ++ e :: post) = .error err := by
  induction pre with
  | nil => simp only [List.nil_append, runElems, he]
  | cons p rest ih =>
    simp only [List.cons_append, runElems, hpre p (by simp)]
    exact ih (fun x hx => hpre x (by simp [hx]))

/-- C1, counterexample: the claim says every array value fails the object
check with `TypeMismatch`, but the object validator's gate is
`typeof data !== 'object'`, which arrays pass (`typeof [] = "object"`): an
empty array validates successfully against an object schema, and a
non-empty array fails with `UnknownProperty` (its index key `"0"`), not
with `TypeMismatch`. -/
theorem C1_counterexample :
    validate (.varr []) (.obj .nil none) = .ok () ∧
    validate (.varr [.vnum 1]) (.obj .nil none)
      = .error (.verr (.unknownProperty "0")) :=
  ⟨rfl, rfl⟩

/-- C1, amended: validating against an Object schema fails with
`TypeMismatch` exactly when the value's runtime `typeof` is not
`"object"`; arrays (and `null`) pass that gate — an empty array even
validates successfully against any object schema with no required list —
while validating against an Array schema does fail with `TypeMismatch`
unless the value is an array (`Array.isArray`), so every non-array
mapping fails the array check with `TypeMismatch`. -/
theorem C1_amended :
    (∀ (v : Value) (props : Props) (req : Option (List String)),
        typeofValue v ≠ "object" →
        validate v (.obj props req)
          = .error (.verr (.typeMismatch (typeofValue v) "object"))) ∧
    (∀ props : Props, validate (.varr []) (.obj props none) = .ok ()) ∧
    (∀ (v : Value) (items : Schema), jsIsArray v = false →
        validate v (.arr items)
          = .error (.verr (.typeMismatch (typeofValue v) "array"))) := by
  refine ⟨fun v props req h => validate_obj_gate v props req h, fun props => ?_,
    fun v items h => validate_arr_gate v items h⟩
  rw [validate_varr_obj]
  rfl

/-- C1 witness: a number against an object schema and a mapping against
an array schema both fail with `TypeMismatch`. -/
theorem C1_amended_witness :
    validate (.vnum 3) (.obj .nil none)
      = .error (.verr (.typeMismatch "number" "object")) ∧
    validate (.vobj []) (.arr .num)
      = .error (.verr (.typeMismatch "object" "array")) :=
  ⟨C1_amended.1 (.vnum 3) .nil none (by decide),
   C1_amended.2.2 (.vobj []) .num (by decide)⟩

/-- C2, counterexample: the claim's "only if" direction fails, because a
nested object check's `MissingRequiredField` propagates unchanged: here
every name in the outer `required` list (`["a"]`) is a key of the value,
yet validation fails with `MissingRequiredField` (raised by the nested
schema at key `"a"` against the empty nested object). -/
theorem C2_counterexample :
    validate (.vobj [("a", .vobj [])])
        (.obj (.cons "a" (.obj .nil (some ["a"])) .nil) (some ["a"]))
      = .error (.verr (.missingRequiredField ["a"])) ∧
    isInEvery ([("a", Value.vobj [])].map Prod.fst) ["a"] = true :=
  ⟨rfl, by decide⟩

/-- C2, amended: for a mapping value and an Object schema with a
non-empty `required` list, if some required name is missing from the
value's key set, validation fails immediately with
`MissingRequiredField` naming that list — checked against the value's
key set, before any per-key lookup, and for every `properties` record
(so a required name absent from both `properties` and the data yields
`MissingRequiredField`, not `UnknownProperty`); if every required name
is present, the required check passes and validation proceeds to the
per-key phase (where a nested object check may still raise its own
`MissingRequiredField`). -/
theorem C2_amended :
    ∀ (fields : List (String × Value)) (props : Props) (r : List String),
      r ≠ [] →
      ((¬ ∀ x ∈ r, x ∈ fields.map Prod.fst) →
          validate (.vobj fields) (.obj props (some r))
            = .error (.verr (.missingRequiredField r))) ∧
      ((∀ x ∈ r, x ∈ fields.map Prod.fst) →
          validate (.vobj fields) (.obj props (some r)) = runFields props fields) := by
  intro fields props r hr
  have hlen : (r.length != 0) = true := by
    cases r with
    | nil => exact absurd rfl hr
    | cons a l => simp
  constructor
  · intro hmiss
    have h2 : isInEvery (fields.map Prod.fst) r = false := by
      rw [← isInEvery_iff] at hmiss
      exact Bool.eq_false_iff.mpr (fun h => hmiss h)
    rw [validate_vobj_obj]
    simp only [objRun]
    rw [if_pos (by simp [hlen, h2])]
  · intro hall
    have h2 : isInEvery (fields.map Prod.fst) r = true := (isInEvery_iff _ _).mpr hall
    rw [validate_vobj_obj]
    simp only [objRun]
    rw [if_neg (by simp [h2])]

/-- C2 witness: the empty mapping against `Object{properties: {},
required: ["name"]}` fails with `MissingRequiredField ["name"]`. -/
theorem C2_amended_witness :
    validate (.vobj []) (.obj .nil (some ["name"]))
      = .error (.verr (.missingRequiredField ["name"])) :=
  (C2_amended [] .nil ["name"] (by decide)).1 (by decide)

/-- C3, counterexample: the claim says a value containing a key with no
entry in `properties` fails with `UnknownProperty`, but the per-key loop
is fail-fast in enumeration order: here the value contains the unknown
key `"b"`, yet the known key `"a"` is enumerated first and its nested
`TypeMismatch` is what surfaces. -/
theorem C3_counterexample :
    validate (.vobj [("a", .vnum 5), ("b", .vstr "x")])
        (.obj (.cons "a" (.str none) .nil) none)
      = .error (.verr (.typeMismatch "number" "string")) ∧
    lookupProp "b" (.cons "a" (.str none) .nil) = none :=
  ⟨rfl, rfl⟩

/-- C3, amended: for a mapping value passing the object type and
required-field checks, the present keys are processed in enumeration
order; for each key in turn, if it has no entry in `properties`
validation fails with `UnknownProperty` for that key, and otherwise the
key's value is recursively validated against its sub-schema with the
first nested failure propagated unchanged — so the first failing key
decides the outcome.  In particular a value whose first (hence a value
all of whose) keys are unknown fails with `UnknownProperty`, not with
success. -/
theorem C3_amended :
    (∀ (fields : List (String × Value)) (props : Props),
        validate (.vobj fields) (.obj props none) = runFields props fields) ∧
    (∀ props : Props, runFields props [] = .ok ()) ∧
    (∀ (props : Props) (k : String) (v : Value) (rest : List (String × Value)),
        lookupProp k props = none →
        runFields props ((k, v) :: rest) = .error (.verr (.unknownProperty k))) ∧
    (∀ (props : Props) (k : String) (v : Value) (rest : List (String × Value))
        (sub : Schema), lookupProp k props = some sub → validate v sub = .ok () →
        runFields props ((k, v) :: rest) = runFields props rest) ∧
    (∀ (props : Props) (k : String) (v : Value) (rest : List (String × Value))
        (sub : Schema) (e : RunError),
        lookupProp k props = some sub → validate v sub = .error e →
        runFields props ((k, v) :: rest) = .error e) ∧
    (∀ (k : String) (v : Value) (fields : List (String × Value)) (props : Props),
        lookupProp k props = none →
        validate (.vobj ((k, v) :: fields)) (.obj props none)
          = .error (.verr (.unknownProperty k))) := by
  refine ⟨fun fields props => ?_, fun props => rfl,
    fun props k v rest hl => ?_, fun props k v rest sub hl hv => ?_,
    fun props k v rest sub e hl hv => ?_, fun k v fields props hl => ?_⟩
  · rw [validate_vobj_obj]
    rfl
  · simp only [runFields, hl]
  · simp only [runFields, hl, hv]
  · simp only [runFields, hl, hv]
  · rw [validate_vobj_obj]
    show runFields props ((k, v) :: fields) = _
    simp only [runFields, hl]

/-- C3 witness: the spec's own example — `{hello: "world"}` against
`Object{properties: {name: String{}}}` fails with `UnknownProperty`. -/
theorem C3_amended_witness :
    validate (.vobj [("hello", .vstr "world")])
        (.obj (.cons "name" (.str none) .nil) none)
      = .error (.verr (.unknownProperty "hello")) :=
  C3_amended.2.2.2.2.2 "hello" (.vstr "world") [] (.cons "name" (.str none) .nil) rfl

/-- C4: for a string value and a String schema carrying an `enum` list,
validation succeeds exactly when the value is a member of the list and
fails with `EnumViolation` exactly when it is not (exact, case-sensitive
equality via list membership); the result is invariant under permuting
the enum list, and is never a `TypeMismatch`. -/
theorem C4_enum_membership :
    ∀ (s : String) (es : List String),
      (validate (.vstr s) (.str (some es)) = .ok () ↔ s ∈ es) ∧
      (validate (.vstr s) (.str (some es)) = .error (.verr .enumViolation) ↔ s ∉ es) ∧
      (∀ es' : List String, es.Perm es' →
          validate (.vstr s) (.str (some es)) = validate (.vstr s) (.str (some es'))) ∧
      (∀ a b : String,
          validate (.vstr s) (.str (some es)) ≠ .error (.verr (.typeMismatch a b))) := by
  intro s es
  have hcontains : ∀ l : List String, l.contains s = true ↔ s ∈ l := by
    intro l; simp
  refine ⟨?_, ?_, ?_, ?_⟩
  · rw [validate_str]
    simp only [stringCheck]
    by_cases hm : s ∈ es
    · simp [(hcontains es).mpr hm, hm]
    · simp [Bool.eq_false_iff.mpr (fun h => hm ((hcontains es).mp h)), hm]
  · rw [validate_str]
    simp only [stringCheck]
    by_cases hm : s ∈ es
    · simp [(hcontains es).mpr hm, hm]
    · simp [Bool.eq_false_iff.mpr (fun h => hm ((hcontains es).mp h)), hm]
  · intro es' hp
    rw [validate_str, validate_str]
    simp only [stringCheck]
    by_cases hm : s ∈ es
    · rw [(hcontains es).mpr hm, (hcontains es').mpr (hp.mem_iff.mp hm)]
    · have hm' : s ∉ es' := fun hx => hm (hp.mem_iff.mpr hx)
      rw [Bool.eq_false_iff.mpr (fun h => hm ((hcontains es).mp h)),
        Bool.eq_false_iff.mpr (fun h => hm' ((hcontains es').mp h))]
  · intro a b
    rw [validate_str]
    simp only [stringCheck]
    by_cases hm : s ∈ es
    · simp [(hcontains es).mpr hm, hm]
    · simp [Bool.eq_false_iff.mpr (fun h => hm ((hcontains es).mp h)), hm]

/-- C4 witness: `"red"` is accepted and the check is unchanged by
permuting the enum list. -/
theorem C4_witness :
    validate (.vstr "red") (.str (some ["red", "green", "blue"]))
      = validate (.vstr "red") (.str (some ["green", "red", "blue"])) :=
  (C4_enum_membership "red" ["red", "green", "blue"]).2.2.1
    ["green", "red", "blue"] (by decide)

/-- C5: the three primitive checks decide by runtime type alone — a
Number or Boolean schema accepts a value exactly when its `typeof`
matches, and a String schema with no enum likewise; any value of a
different runtime type fails with `TypeMismatch` reporting its `typeof`;
for a String schema carrying an enum, success holds exactly for member
strings; no other constraint is applied. -/
theorem C5_primitive_type_only :
    ∀ v : Value,
      (validate v .num = .ok () ↔ typeofValue v = "number") ∧
      (typeofValue v ≠ "number" →
          validate v .num = .error (.verr (.typeMismatch (typeofValue v) "number"))) ∧
      (validate v .bool = .ok () ↔ typeofValue v = "boolean") ∧
      (typeofValue v ≠ "boolean" →
          validate v .bool = .error (.verr (.typeMismatch (typeofValue v) "boolean"))) ∧
      (validate v (.str none) = .ok () ↔ typeofValue v = "string") ∧
      (∀ en : Option (List String), typeofValue v ≠ "string" →
          validate v (.str en) = .error (.verr (.typeMismatch (typeofValue v) "string"))) ∧
      (∀ es : List String,
          validate v (.str (some es)) = .ok () ↔ ∃ s, v = .vstr s ∧ s ∈ es) := by
  intro v
  cases v <;>
    simp [validate_num, validate_bool, validate_str, numberCheck, booleanCheck,
      stringCheck, typeofValue]

/-- C5 witness: a boolean against a Number schema fails with
`TypeMismatch` reporting the value's runtime type. -/
theorem C5_witness :
    validate (.vbool true) .num = .error (.verr (.typeMismatch "boolean" "number")) :=
  (C5_primitive_type_only (.vbool true)).2.1 (by decide)

/-- C6: array validation is fail-fast in sequence order — the engine on
an array value equals the in-order element scan `runElems`; if every
element validates the call succeeds, and if the elements split as
`pre ++ e :: post` with every element of `pre` succeeding and `e`
failing, the whole call fails with `e`'s error unchanged, for every
`post` (so elements after the first failure cannot influence the
result). -/
theorem C6_array_fail_fast :
    ∀ items : Schema,
      (∀ elems : List Value, validate (.varr elems) (.arr items)
          = runElems (fun e => validate e items) elems) ∧
      (∀ elems : List Value, (∀ e ∈ elems, validate e items = .ok ()) →
          validate (.varr elems) (.arr items) = .ok ()) ∧
      (∀ (pre : List Value) (e : Value) (post : List Value) (err : RunError),
          (∀ x ∈ pre, validate x items = .ok ()) →
          validate e items = .error err →
          validate (.varr (pre ++ e :: post)) (.arr items) = .error err) := by
  intro items
  refine ⟨fun elems => validate_arr_varr elems items, fun elems h => ?_,
    fun pre e post err hpre he => ?_⟩
  · rw [validate_arr_varr]
    exact runElems_ok _ elems h
  · rw [validate_arr_varr]
    exact runElems_append _ pre e post err hpre he

/-- C6 witness: in `[1, "x", true]` against `Array{items: Number{}}` the
first failing element is the string at index 1 and its `TypeMismatch`
surfaces unchanged, with the later boolean never influencing the
result. -/
theorem C6_witness :
    validate (.varr [.vnum 1, .vstr "x", .vbool true]) (.arr .num)
      = .error (.verr (.typeMismatch "string" "number")) :=
  (C6_array_fail_fast .num).2.2 [.vnum 1] (.vstr "x") [.vbool true]
    (.verr (.typeMismatch "string" "number")) (by decide) (by decide)

/-- C7: determinism — the engine is a pure function of the (value,
schema) pair, so two invocations on the same pair yield the same result;
the embedding has no state and never modifies the value or the schema
(the source reads its inputs and only constructs fresh validator
objects). -/
theorem C7_deterministic :
    ∀ (v : Value) (s : Schema) (r1 r2 : Res),
      validate v s = r1 → validate v s = r2 → r1 = r2 :=
  fun _ _ _ _ h1 h2 => h1.symm.trans h2

/-- C7 witness: two evaluations of the same call agree. -/
theorem C7_witness : (Except.ok () : Res) = .ok () :=
  C7_deterministic (.vstr "a") (.str none) (.ok ()) (.ok ()) rfl rfl

/-- C8: termination under acyclicity — schemas in the embedding are
finite trees (the documented precondition), and the fuelled engine
`validateF` run with any fuel of at least `sizeS schema` finishes
without exhausting its fuel, returning exactly the total engine's
result, which is either success or a single error. -/
theorem C8_terminates :
    ∀ (s : Schema) (v : Value) (n : Nat), sizeS s ≤ n →
      validateF n v s = some (validate v s) ∧
      (validate v s = .ok () ∨ ∃ e, validate v s = .error e) := by
  intro s v n h
  refine ⟨validateF_validate s n v h, ?_⟩
  cases hv : validate v s with
  | ok u => left; cases u; rfl
  | error e => right; exact ⟨e, rfl⟩

/-- C8 witness: fuel 2 suffices for `Array{items: Number{}}`. -/
theorem C8_witness :
    validateF 2 (.varr [.vnum 1]) (.arr .num)
        = some (validate (.varr [.vnum 1]) (.arr .num)) ∧
    (validate (.varr [.vnum 1]) (.arr .num) = .ok () ∨
        ∃ e, validate (.varr [.vnum 1]) (.arr .num) = .error e) :=
  C8_terminates (.arr .num) (.varr [.vnum 1]) 2 (by decide)

/-- C9: for the value `null` against any Object schema, the
`typeof data !== 'object'` gate is passed (`typeof null = "object"`),
so the call never fails with a `TypeMismatch` validation error; instead
the subsequent `Object.keys(data)` enumeration throws the JS
`TypeError`, which is not one of the defined `ValidationError`
outcomes. -/
theorem C9_null_object :
    ∀ (props : Props) (req : Option (List String)),
      validate .vnull (.obj props req) = .error .keysTypeError ∧
      (∀ e : ValidationError, validate .vnull (.obj props req) ≠ .error (.verr e)) := by
  intro props req
  refine ⟨validate_vnull_obj props req, fun e h => ?_⟩
  rw [validate_vnull_obj] at h
  injection h with h2
  exact RunError.noConfusion h2

/-- C9 witness: the concrete call on `null` against an empty object
schema yields the JS `TypeError`, not a validation error. -/
theorem C9_witness :
    validate .vnull (.obj .nil none) = .error .keysTypeError :=
  (C9_null_object .nil none).1

/-- C10: vacuous success — the empty array validates against every Array
schema (no element check runs), and the empty mapping validates against
every Object schema whose `required` list is absent or empty, whatever
the `properties` sub-schemas. -/
theorem C10_vacuous_success :
    (∀ items : Schema, validate (.varr []) (.arr items) = .ok ()) ∧
    (∀ props : Props, validate (.vobj []) (.obj props none) = .ok ()) ∧
    (∀ props : Props, validate (.vobj []) (.obj props (some [])) = .ok ()) := by
  refine ⟨fun items => ?_, fun props => ?_, fun props => ?_⟩
  · rw [validate_arr_varr]
    rfl
  · rw [validate_vobj_obj]
    rfl
  · rw [validate_vobj_obj]
    rfl
